import Mathlib

/-!
Verification of the interview-simulator backend (`backend/src/index.ts` and
`backend/src/transcriber.ts`) against its natural-language specification.

The TypeScript source is shallowly embedded below.  JavaScript strings are
modelled as Lean `String`s (sequences of characters; the model identifies
JS UTF-16 length with character count, faithful on the ASCII range used
throughout); numbers the code uses as integers are modelled as `Int`/`Nat`;
the `Math.random()` jitter is modelled as a rational in `[0,1)`; external
I/O (speech transcription and the remote language model) is modelled by
oracle arguments giving the outcome of the call (`none` models the call
throwing).  Regex-based text processing is embedded by explicit scanners
that follow the JS regex semantics (leftmost match, greedy/lazy quantifier
behaviour and word-boundary tests on the ASCII range, global replacement
continuing after each match).
-/

/-- Interview phases, from the `Phase` union type of the source. -/
inductive Phase where
  | intro
  | projects
  | technical
  | behavioral
  | scenario
  | wrapup
deriving DecidableEq, Repr

/-- Candidate levels, from the `Level` union type of the source. -/
inductive Level where
  | intern
  | junior
  | mid
  | senior
  | lead
deriving DecidableEq, Repr

/-- Embeds `getPhaseByTurn` (index.ts lines 73-82):
sequence intro → projects → technical → behavioral → scenario → wrapup. -/
def getPhaseByTurn (turnIndex maxTurns : Int) : Phase :=
  if turnIndex ≤ 0 then .intro
  else
    let lastIndex := max 0 (maxTurns - 1)
    if turnIndex ≥ lastIndex then .wrapup
    else if turnIndex ≤ 2 then .projects
    else if turnIndex ≤ 4 then .technical
    else if turnIndex ≤ 6 then .behavioral
    else .scenario

/-- Position of a phase in the controller order
intro, projects, technical, behavioral, scenario, wrapup (a spec-side
measure used to state that the phase never regresses). -/
def phaseRank : Phase → Nat
  | .intro => 0
  | .projects => 1
  | .technical => 2
  | .behavioral => 3
  | .scenario => 4
  | .wrapup => 5

/-- Embeds `QUESTION_BANK` (index.ts lines 57-63). -/
def QUESTION_BANK : List String :=
  [ "Tell me about a challenging bug you fixed and how you approached it.",
    "Describe a time when you had to balance speed and quality. What did you do?",
    "How do you handle disagreements within a product or engineering team?",
    "What metric do you rely on most in your current role, and why?",
    "Walk me through a project where you significantly improved user experience." ]

/-- Embeds `getQuestionByIndex` (index.ts lines 65-70). -/
def getQuestionByIndex (index : Nat) : String :=
  if QUESTION_BANK.length = 0 then "Please describe a recent project you are proud of."
  else QUESTION_BANK.getD (index % QUESTION_BANK.length) ""

/-- Embeds `clampSummary` (index.ts lines 84-88).  `joined.slice(-maxChars)`
keeps the `maxChars`-character suffix; for `maxChars = 0` JS `slice(-0)`
is `slice(0)`, i.e. the whole string. -/
def clampSummary (texts : List String) (maxChars : Nat) : String :=
  let joined := String.intercalate " \n" texts
  if joined.length ≤ maxChars then joined
  else if maxChars = 0 then joined
  else String.mk (joined.toList.drop (joined.length - maxChars))

/-- Case-insensitive character comparison (JS `i` regex flag, ASCII). -/
def lowerEq (a b : Char) : Bool := a.toLower = b.toLower

/-- `matchesFrom eq pat l`: `pat` matches a prefix of `l` under character
comparison `eq`. -/
def matchesFrom (eq : Char → Char → Bool) : List Char → List Char → Bool
  | [], _ => true
  | _ :: _, [] => false
  | p :: ps, c :: cs => eq p c && matchesFrom eq ps cs

/-- `containsFrom eq pat l`: some suffix of `l` starts with `pat` under `eq`. -/
def containsFrom (eq : Char → Char → Bool) (pat : List Char) : List Char → Bool
  | [] => matchesFrom eq pat []
  | c :: cs => matchesFrom eq pat (c :: cs) || containsFrom eq pat cs

/-- Exact substring test (used for the already-lowercased `inferLevel` tests). -/
def containsStr (s pat : String) : Bool :=
  containsFrom (fun a b => a = b) pat.toList s.toList

/-- JS `toLowerCase` on the ASCII range, as a character map. -/
def toLowerStr (s : String) : String := String.mk (s.toList.map Char.toLower)

def strChars (s : String) : List Char := s.toList

/-- Case-insensitive substring test. -/
def containsCI (pat : List Char) (l : List Char) : Bool := containsFrom lowerEq pat l

/-- `q.startsWith("\x7b")`: the first character is an opening brace. -/
def startsWithBrace (s : String) : Bool :=
  match s.toList with
  | c :: _ => c == Char.ofNat 123
  | [] => false

/-- Embeds `inferLevel` (index.ts lines 153-160).  Each regex there is a
plain alternation of literals tested against the lowercased role
(`/sr\.?/` matches exactly when `"sr"` occurs, the dot being optional). -/
def inferLevel (role : Option String) : Level :=
  let r := toLowerStr (role.getD "")
  if containsStr r "intern" || containsStr r "apprentice" || containsStr r "trainee" then .intern
  else if containsStr r "junior" || containsStr r "grad" || containsStr r "graduate" ||
      containsStr r "entry" then .junior
  else if containsStr r "lead" || containsStr r "principal" || containsStr r "staff" ||
      containsStr r "architect" then .lead
  else if containsStr r "senior" || containsStr r "sr" then .senior
  else .mid

/-- JS `Math.round` on the values produced here (nonnegative): floor(x + 1/2). -/
def jsRound (x : ℚ) : Int := ⌊x + 1 / 2⌋

/-- The object literal returned by `buildMockEvaluation` (index.ts 262-275). -/
structure MockEvaluation where
  score : Int
  pass : Bool
  feedback : String
  next_question : Option String
deriving DecidableEq, Repr

/-- Embeds `buildMockEvaluation` (index.ts lines 262-275); `rnd` is the
`Math.random()` sample. -/
def buildMockEvaluation (transcript : String) (rnd : ℚ) : MockEvaluation :=
  let normalizedLength : ℚ := min 1 ((transcript.length : ℚ) / 800)
  let baseScore : Int := jsRound (2 + normalizedLength * 3 + rnd)
  let score : Int := max 1 (min 5 baseScore)
  { score := score
    pass := decide (score ≥ 3)
    feedback :=
      if score ≥ 3 then
        "Solid answer. You clearly explained the situation and your impact."
      else
        "Try adding more detail about your actions and measurable outcomes."
    next_question := none }

/-- Embeds the guard clauses of `convertToWav` (transcriber.ts lines 29-35):
a missing file or a zero-byte recording is rejected before any transcoding. -/
def convertToWavGuard (inputPath : String) (fileExists : Bool) (sizeBytes : Nat) :
    Except String Unit :=
  if !fileExists then Except.error ("Audio chunk missing: " ++ inputPath)
  else if sizeBytes = 0 then Except.error "Recording was empty — please try again."
  else Except.ok ()

/-! ### The question sanitizer (index.ts lines 341-363)

`sanitizeQuestion` applies, in order: code-fence removal, label-line
removal, section-heading-line removal, a leading role-play tag strip,
three role/company phrase removals, line joining, truncation at the first
question mark, whitespace collapapse — see each stage below.  The scanners
take a fuel argument equal to the input length; every step consumes at
least one character, so the fuel never runs out before the input does. -/

/-- The backtick character (code point 96). -/
def backtick : Char := Char.ofNat 96

/-- JS `\s` on the ASCII range: space, tab, line feed, carriage return,
vertical tab, form feed. -/
def wsChar (c : Char) : Bool :=
  c == ' ' || c == '\t' || c == '\n' || c == '\r' ||
    c == Char.ofNat 11 || c == Char.ofNat 12

/-- JS line terminators on the ASCII range. -/
def lineTermChar (c : Char) : Bool := c == '\n' || c == '\r'

/-- JS `\w`: ASCII letters, digits, underscore. -/
def wordChar (c : Char) : Bool := c.isAlphanum || c == '_'

/-- Case-insensitive literal strip: `some rest` when `pat` (case-folded)
is a prefix, returning the remaining text. -/
def stripPrefixCI : List Char → List Char → Option (List Char)
  | [], l => some l
  | _ :: _, [] => none
  | p :: ps, c :: cs => if lowerEq p c then stripPrefixCI ps cs else none

/-- Finds the first occurrence of three consecutive backticks, returning
the text before it and the text after it. -/
def splitAtTriple (acc : List Char) : List Char → Option (List Char × List Char)
  | c₁ :: c₂ :: c₃ :: rest =>
    if c₁ = backtick && c₂ = backtick && c₃ = backtick then some (acc.reverse, rest)
    else splitAtTriple (c₁ :: acc) (c₂ :: c₃ :: rest)
  | _ => none

/-- Stage 1: `t.replace(/（fence）[\s\S]*?（fence）/g, " ")` — each lazily
matched fenced block (opening triple backtick up to the next triple
backtick) is replaced by a single space; scanning continues after the
match, per JS global replacement. -/
def removeFences : Nat → List Char → List Char
  | 0, l => l
  | fuel + 1, l =>
    match splitAtTriple [] l with
    | none => l
    | some (pre, rest₁) =>
      match splitAtTriple [] rest₁ with
      | none => l
      | some (_, rest₂) => pre ++ ' ' :: removeFences fuel rest₂

/-- `.*$` in a multiline regex: consume to the end of the current line. -/
def restOfLine (l : List Char) : List Char := l.dropWhile (fun c => !lineTermChar c)

/-- The label alternatives of stage 2 (source order). -/
def labelKeys : List (List Char) :=
  [ strChars "Company", strChars "Role", strChars "Role_Description",
    strChars "Competencies", strChars "Phase", strChars "Turn_Index",
    strChars "Max_Turns", strChars "Candidate_Summary" ]

/-- Alternation for stage 2: try each label in order; a label matches when
it is a case-insensitive prefix followed by optional whitespace and a
colon (the JS engine backtracks into the alternation exactly this way,
and `\s*` before a non-space literal is necessarily maximal). -/
def tryLabelKeys (l : List Char) : List (List Char) → Option (List Char)
  | [] => none
  | kw :: kws =>
    match stripPrefixCI kw l with
    | some r =>
      match r.dropWhile wsChar with
      | c :: rest => if c = ':' then some (restOfLine rest) else tryLabelKeys l kws
      | [] => tryLabelKeys l kws
    | none => tryLabelKeys l kws

/-- Stage 2 matcher, at a `^` position: `^\s*(Company|Role|…)\s*:.*$` with
the `gim` flags; the leading `\s*` may span line breaks. -/
def matchLabel (l : List Char) : Option (List Char) :=
  tryLabelKeys (l.dropWhile wsChar) labelKeys

/-- The heading alternatives of stage 3 (source order). -/
def sectionKeys : List (List Char) :=
  [strChars "BEHAVIOR RULES", strChars "PHASE LOGIC", strChars "OUTPUT FORMAT"]

/-- Alternation for stage 3. -/
def trySectionKeys (l : List Char) : List (List Char) → Option (List Char)
  | [] => none
  | kw :: kws =>
    match stripPrefixCI kw l with
    | some r => some (restOfLine r)
    | none => trySectionKeys l kws

/-- Stage 3 matcher: `^\s*(BEHAVIOR RULES|PHASE LOGIC|OUTPUT FORMAT).*$`. -/
def matchSection (l : List Char) : Option (List Char) :=
  trySectionKeys (l.dropWhile wsChar) sectionKeys

/-- Global replace-by-one-space for the two `^…$`-anchored stages:
a match is attempted only at line starts (`atStart`); a matched span is
replaced by a single space and scanning resumes after it (the last
character of such a match is never a line terminator, so the next
position is not a line start). -/
def scanLines (m : List Char → Option (List Char)) : Nat → Bool → List Char → List Char
  | 0, _, l => l
  | _ + 1, _, [] => []
  | fuel + 1, atStart, c :: cs =>
    if atStart then
      match m (c :: cs) with
      | some rest => ' ' :: scanLines m fuel false rest
      | none => c :: scanLines m fuel (lineTermChar c) cs
    else c :: scanLines m fuel (lineTermChar c) cs

/-- Stage 4 alternatives, with the trailing colon split off so the colon
test is explicit. -/
def qaLeadKeys : List (List Char) :=
  [strChars "Q", strChars "Question", strChars "Interviewer", strChars "Prompt"]

/-- Alternation for stage 4 (`Q:`, `Question:`, `Interviewer:`, `Prompt:`). -/
def tryLeadKeys (l : List Char) : List (List Char) → Option (List Char)
  | [] => none
  | kw :: kws =>
    match stripPrefixCI kw l with
    | some (c :: r) => if c = ':' then some r else tryLeadKeys l kws
    | _ => tryLeadKeys l kws

/-- Stage 4: `t.replace(/^\s*(Q:|Question:|Interviewer:|Prompt:)\s*/i, "")` —
anchored at the string start only, single replacement. -/
def stripRolePlayLead (l : List Char) : List Char :=
  match tryLeadKeys (l.dropWhile wsChar) qaLeadKeys with
  | some r => r.dropWhile wsChar
  | none => l

/-- The character class `[A-Za-z0-9 ./#+-]` of stages 6 and 7. -/
def roleClassChar (c : Char) : Bool :=
  c.isAlphanum || c == ' ' || c == '.' || c == '/' || c == '#' || c == '+' || c == '-'

/-- `\b` straight after a word character: the next character must not be a
word character (or the string ends). -/
def noWordNext (l : List Char) : Bool :=
  match l with
  | [] => true
  | c :: _ => !wordChar c

/-- `" of\b"` tail of stage 5 (the final lazy `[^?.!]*?` matches zero
characters, having nothing after it). -/
def finishOf (r : List Char) : Option (Bool × List Char) :=
  match stripPrefixCI (strChars " of") r with
  | some r₂ => if noWordNext r₂ then some (true, r₂) else none
  | none => none

/-- `(position|role) of\b` with JS alternation order. -/
def corePositionRole (r : List Char) : Option (Bool × List Char) :=
  match (stripPrefixCI (strChars "position") r).bind finishOf with
  | some res => some res
  | none => (stripPrefixCI (strChars "role") r).bind finishOf

/-- Stage 5 matcher: `\bfor (the )?(position|role) of\b[^?.!]*?` (greedy
`(the )?` first, backtracking to the bare alternative).  `prevW` records
whether the previous character is a word character, giving the leading
`\b` test; every successful match ends in the word character f. -/
def matchForPositionOf (prevW : Bool) (l : List Char) : Option (Bool × List Char) :=
  match stripPrefixCI (strChars "for ") l with
  | none => none
  | some r =>
    if prevW then none
    else
      match (stripPrefixCI (strChars "the ") r).bind corePositionRole with
      | some res => some res
      | none => corePositionRole r

/-- Backtracking for stage 6: the greedy class run is given reversed; give
characters back one at a time until `" role"` followed by `\b` matches. -/
def backtrackRole : List Char → List Char → Option (Bool × List Char)
  | [], _ => none
  | c :: cs, rest =>
    match stripPrefixCI (strChars " role") rest with
    | some r₂ => if noWordNext r₂ then some (true, r₂) else backtrackRole cs (c :: rest)
    | none => backtrackRole cs (c :: rest)

/-- `[A-Za-z0-9 ./#+-]+ role\b` with greedy class matching. -/
def runRole (r : List Char) : Option (Bool × List Char) :=
  let run := r.takeWhile roleClassChar
  backtrackRole run.reverse (r.drop run.length)

/-- Stage 6 matcher: `\bfor (the )?[A-Za-z0-9 ./#+-]+ role\b`. -/
def matchForRole (prevW : Bool) (l : List Char) : Option (Bool × List Char) :=
  match stripPrefixCI (strChars "for ") l with
  | none => none
  | some r =>
    if prevW then none
    else
      match (stripPrefixCI (strChars "the ") r).bind runRole with
      | some res => some res
      | none => runRole r

/-- `\b` between the class character `c` just consumed and the rest. -/
def boundaryAfter (c : Char) (rest : List Char) : Bool :=
  match rest with
  | [] => wordChar c
  | d :: _ => wordChar c != wordChar d

/-- Backtracking for stage 7: shrink the greedy class run from the right
until the trailing `\b` holds; reports whether the match's last character
is a word character. -/
def backtrackClass : List Char → List Char → Option (Bool × List Char)
  | [], _ => none
  | c :: cs, rest =>
    if boundaryAfter c rest then some (wordChar c, rest)
    else backtrackClass cs (c :: rest)

/-- Stage 7 matcher: `\bat [A-Za-z0-9 ./#+-]+\b`. -/
def matchAtPhrase (prevW : Bool) (l : List Char) : Option (Bool × List Char) :=
  match stripPrefixCI (strChars "at ") l with
  | none => none
  | some r =>
    if prevW then none
    else
      let run := r.takeWhile roleClassChar
      backtrackClass run.reverse (r.drop run.length)

/-- Global replace-by-empty for the three word-boundary stages; `prevW`
tracks whether the character before the current position (in the original
text, as JS does) is a word character. -/
def scanReplace (m : Bool → List Char → Option (Bool × List Char)) :
    Nat → Bool → List Char → List Char
  | 0, _, l => l
  | _ + 1, _, [] => []
  | fuel + 1, prevW, c :: cs =>
    match m prevW (c :: cs) with
    | some (lw, rest) => scanReplace m fuel lw rest
    | none => c :: scanReplace m fuel (wordChar c) cs

/-- Prepends a character onto the first line of a split result. -/
def consOnto (c : Char) : List (List Char) → List (List Char)
  | [] => [[c]]
  | line :: more => (c :: line) :: more

/-- `t.split(/\r?\n/)`: separators are LF or CRLF; a lone CR is ordinary
text. -/
def splitNL : List Char → List (List Char)
  | [] => [[]]
  | [c] => if c = '\n' then [[], []] else [[c]]
  | c :: d :: rest =>
    if c = '\n' then [] :: splitNL (d :: rest)
    else if c = '\r' && d = '\n' then [] :: splitNL rest
    else consOnto c (splitNL (d :: rest))

/-- JS `String.prototype.trim` on the modelled whitespace set. -/
def trimChars (l : List Char) : List Char :=
  ((l.dropWhile wsChar).reverse.dropWhile wsChar).reverse

/-- `replace(/\s+/g, " ")`: every maximal whitespace run becomes one space. -/
def collapseWs : Nat → List Char → List Char
  | 0, l => l
  | _ + 1, [] => []
  | fuel + 1, c :: cs =>
    if wsChar c then ' ' :: collapseWs fuel (cs.dropWhile wsChar)
    else c :: collapseWs fuel cs

/-- `first.slice(0, first.indexOf("?") + 1)` when a question mark occurs:
keep the text up to and including the first question mark. -/
def cutAtQ : List Char → List Char
  | [] => []
  | c :: cs => if c = '?' then [c] else c :: cutAtQ cs

/-- The full `sanitizeQuestion` pipeline on character lists. -/
def sanitizeSteps (l : List Char) : List Char :=
  let t₁ := removeFences l.length l
  let t₂ := scanLines matchLabel t₁.length true t₁
  let t₃ := scanLines matchSection t₂.length true t₂
  let t₄ := stripRolePlayLead t₃
  let t₅ := scanReplace matchForPositionOf t₄.length false t₄
  let t₆ := scanReplace matchForRole t₅.length false t₅
  let t₇ := scanReplace matchAtPhrase t₆.length false t₆
  let lines := ((splitNL t₇).map trimChars).filter (fun x => !x.isEmpty)
  let first := trimChars (List.intercalate [' '] lines)
  let cut := cutAtQ first
  (trimChars (collapseWs cut.length cut)).take 240

/-- Embeds `sanitizeQuestion` (index.ts lines 341-363). -/
def sanitizeQuestion (raw : String) : String :=
  String.mk (sanitizeSteps raw.toList)

/-! ### Sessions and the orchestrator -/

/-- Embeds the `Session` record (index.ts lines 33-53).  Audio buffers are
byte lists; their contents are never inspected by the orchestrator logic
modelled here. -/
structure Session where
  id : String
  chunks : List (List Nat)
  transcripts : List String
  questionIndex : Nat
  currentQuestion : Option String
  company : Option String
  role : Option String
  roleDescription : Option String
  competencies : Option String
  level : Level
  turnIndex : Int
  maxTurns : Int
  phase : Phase
  summarySoFar : String
  askedQuestions : List String
  recentTranscripts : List String
deriving DecidableEq, Repr

/-- Embeds `fallbackQuestionForPhase` (index.ts lines 238-260). -/
def fallbackQuestionForPhase (s : Session) : String :=
  let isJunior := s.level == Level.intern || s.level == Level.junior
  match s.phase with
  | .intro => "Briefly introduce yourself and your relevant experience."
  | .projects =>
    if isJunior then "Tell me about a project you built or contributed to and your role."
    else "Describe a project where you owned key responsibilities."
  | .technical =>
    if isJunior then "Explain an algorithm or data structure you know well and when you\x27d use it."
    else "Explain how you\x27d design a scalable, fault-tolerant solution."
  | .behavioral => "Tell me about a time you demonstrated ownership and handled ambiguity."
  | .scenario => "An outage impacts customers; what immediate steps would you take and why?"
  | .wrapup => "Why are you interested in this role, and any questions for us?"

/-- Embeds `getNextQuestionFromLLM` (index.ts lines 335-385).  `llmText` is
the raw text returned by the remote model (`none` when the call throws);
the sanitized text is rejected in favour of the canned fallback when it is
empty, starts with an opening brace, or is shorter than 4 characters. -/
def getNextQuestionFromLLM (s : Session) (llmText : Option String) : String :=
  match llmText with
  | none => fallbackQuestionForPhase s
  | some text =>
    let q := sanitizeQuestion text
    if q == "" || startsWithBrace q || q.length < 4 then fallbackQuestionForPhase s
    else q

/-- Outcome of `evaluateAnswer` (index.ts lines 323-333): either a JSON
object parsed out of the model's reply (its `score` field, if any, plus the
raw payload, which the orchestrator treats as opaque), or the deterministic
mock evaluation. -/
inductive EvalResult where
  | parsed (score : Option Int) (raw : String)
  | mock (m : MockEvaluation)
deriving DecidableEq, Repr

/-- `evalJson?.score || 3` (index.ts line 609): a missing or zero (falsy)
score defaults to 3. -/
def evalScoreOr3 : EvalResult → Int
  | .parsed (some n) _ => if n = 0 then 3 else n
  | .parsed none _ => 3
  | .mock m => if m.score = 0 then 3 else m.score

/-- Events the server pushes to the interview room. -/
inductive SockEvent where
  | evaluation (ev : EvalResult) (nextQuestion : Option String) (transcript : String)
  | interviewEnded (summary : String) (averageScore : Int)
  | question (q : String)
  | sessionMissing
deriving DecidableEq, Repr

/-- Embeds `POST /api/interviews` (index.ts lines 388-438): builds the
session record, generates the first question (the oracle `llmText` gives
the model's reply, `none` when the call fails) and appends it to
`askedQuestions` when truthy.  The `catch` branch of the route is dead in
this model because `getNextQuestionFromLLM` itself catches its errors. -/
def createSession (id : String) (company role roleDescription competencies : Option String)
    (maxTurns : Option Int) (level : Option Level) (llmText : Option String) : Session :=
  let initialTurn : Int := 0
  let mTurns : Int :=
    match maxTurns with
    | some m => if 0 < m then m else 8
    | none => 8
  let base : Session :=
    { id := id, chunks := [], transcripts := [], questionIndex := 0, currentQuestion := none,
      company := company, role := role, roleDescription := roleDescription,
      competencies := competencies, level := level.getD (inferLevel role),
      turnIndex := initialTurn, maxTurns := mTurns,
      phase := getPhaseByTurn initialTurn mTurns,
      summarySoFar := "", askedQuestions := [], recentTranscripts := [] }
  let q := getNextQuestionFromLLM base llmText
  { base with
      currentQuestion := some q,
      askedQuestions := if q ≠ "" then base.askedQuestions ++ [q] else base.askedQuestions }

/-- The capped push onto `recentTranscripts` (index.ts lines 570-575):
append, then evict the oldest entry if the length exceeds 3. -/
def pushCap3 (r : List String) (t : String) : List String :=
  if (r ++ [t]).length > 3 then (r ++ [t]).tail else r ++ [t]

/-- The state mutation the `end-answer` handler performs before its
completion check (index.ts lines 546-584): clear `chunks`, record the
produced transcript (the sentinel when transcription failed), cap the
recent-transcript list, merge the extracted facts line into the capped
summary, advance the turn (clamped to `maxTurns`) and recompute the
phase.  `extractFacts` stands for the pure fact extractor
`extractKeyFacts` (index.ts lines 90-151), whose output is treated as an
opaque string: no property proved here depends on it, so the theorems
below hold for the real extractor in particular. -/
def postAnswerSession (extractFacts : String → String) (s : Session)
    (transcription : Option String) : Session :=
  let transcript := transcription.getD "Transcription failed."
  { s with
    chunks := []
    transcripts := s.transcripts ++ [transcript]
    recentTranscripts := pushCap3 s.recentTranscripts transcript
    summarySoFar :=
      clampSummary ([s.summarySoFar, extractFacts transcript].filter (fun t => !(t == ""))) 1200
    turnIndex := min (s.turnIndex + 1) s.maxTurns
    phase := getPhaseByTurn (min (s.turnIndex + 1) s.maxTurns) s.maxTurns }

/-- Embeds the `end-answer` handler body after its guards (index.ts lines
545-642).  Oracles: `transcription` is the transcription outcome (`none`
when both tiers fail, in which case the sentinel transcript is
substituted), `ev` the evaluation outcome, and `llmText` the raw reply
used for the next question. -/
def endAnswer (extractFacts : String → String) (s : Session)
    (transcription : Option String) (ev : EvalResult) (llmText : Option String) :
    Session × List SockEvent :=
  let transcript := transcription.getD "Transcription failed."
  let s₆ := postAnswerSession extractFacts s transcription
  if s₆.turnIndex ≥ s₆.maxTurns then
    (s₆, [SockEvent.evaluation ev none transcript,
          SockEvent.interviewEnded s₆.summarySoFar (evalScoreOr3 ev)])
  else
    let nq₀ := getNextQuestionFromLLM s₆ llmText
    if nq₀ = "" then
      let qi := (s₆.questionIndex + 1) % QUESTION_BANK.length
      let nq := getQuestionByIndex qi
      let s₇ := { s₆ with questionIndex := qi }
      ({ s₇ with
          currentQuestion := some nq,
          askedQuestions := if nq ≠ "" then s₇.askedQuestions ++ [nq] else s₇.askedQuestions },
       [SockEvent.evaluation ev (some nq) transcript])
    else
      ({ s₆ with
          currentQuestion := some nq₀,
          askedQuestions := if nq₀ ≠ "" then s₆.askedQuestions ++ [nq₀] else s₆.askedQuestions },
       [SockEvent.evaluation ev (some nq₀) transcript])

/-- Embeds the `audio-chunk` handler (index.ts lines 525-535), including
its guards: without a joined session id, or with an id absent from the
store, nothing happens. -/
def handleAudioChunk (store : List (String × Session)) (sid : Option String)
    (chunk : List Nat) : List (String × Session) × List SockEvent :=
  match sid with
  | none => (store, [])
  | some id =>
    match store.lookup id with
    | none => (store, [])
    | some s =>
      (store.map (fun p => if p.1 = id then (p.1, { s with chunks := s.chunks ++ [chunk] }) else p),
       [])

/-- Embeds the `end-answer` handler guards (index.ts lines 537-544) around
`endAnswer`. -/
def handleEndAnswer (extractFacts : String → String) (store : List (String × Session))
    (sid : Option String) (transcription : Option String) (ev : EvalResult)
    (llmText : Option String) : List (String × Session) × List SockEvent :=
  match sid with
  | none => (store, [])
  | some id =>
    match store.lookup id with
    | none => (store, [])
    | some s =>
      let r := endAnswer extractFacts s transcription ev llmText
      (store.map (fun p => if p.1 = id then (p.1, r.1) else p), r.2)

/-- The transcript recorded for an answer given its transcription outcome. -/
def answerTranscript (a : Option String × EvalResult × Option String) : String :=
  a.1.getD "Transcription failed."

/-- Folds a sequence of completed answers (each with its three oracle
outcomes) through the `end-answer` handler body. -/
def runAnswers (extractFacts : String → String) (s : Session)
    (inputs : List (Option String × EvalResult × Option String)) : Session :=
  inputs.foldl (fun st a => (endAnswer extractFacts st a.1 a.2.1 a.2.2).1) s

/-- The suffix of the last `n` elements (spec-side helper). -/
def lastN {α : Type} (n : Nat) (l : List α) : List α := l.drop (l.length - n)

/-- `noDoubleSpace l`: no two consecutive spaces. -/
def noDoubleSpace : List Char → Bool
  | c :: d :: rest => !(c == ' ' && d == ' ') && noDoubleSpace (d :: rest)
  | _ => true

/-- Normal form for sanitizer outputs: at most 240 characters, whitespace
only as single interior spaces, no colon or backtick, a question mark at
most as the final character, and no case-insensitive occurrence of the
substrings the removal stages look for. -/
def sanitizedNormalForm (l : List Char) : Bool :=
  decide (l.length ≤ 240) &&
  l.all (fun c => !wsChar c || c == ' ') &&
  noDoubleSpace l &&
  (match l.head? with | some c => !(c == ' ') | none => true) &&
  (match l.getLast? with | some c => !(c == ' ') | none => true) &&
  !l.contains ':' &&
  !l.contains backtick &&
  l.dropLast.all (fun c => !(c == '?')) &&
  !containsCI (strChars "at ") l &&
  !containsCI (strChars "for ") l &&
  !containsCI (strChars "BEHAVIOR RULES") l &&
  !containsCI (strChars "PHASE LOGIC") l &&
  !containsCI (strChars "OUTPUT FORMAT") l

/-! ## Theorems -/

/-- C1: for maxTurns ≥ 2 the phase function starts at intro, ends at wrapup,
never regresses on 0..maxTurns-1, and follows the boundary table
(≤2 projects, ≤4 technical, ≤6 behavioral, else scenario) strictly between
the endpoints. -/
theorem c1_getPhaseByTurn_spec (m : Int) (hm : 2 ≤ m) :
    getPhaseByTurn 0 m = Phase.intro ∧
    getPhaseByTurn (m - 1) m = Phase.wrapup ∧
    (∀ i j : Int, 0 ≤ i → i ≤ j → j ≤ m - 1 →
      phaseRank (getPhaseByTurn i m) ≤ phaseRank (getPhaseByTurn j m)) ∧
    (∀ i : Int, 0 < i → i < m - 1 →
      getPhaseByTurn i m =
        (if i ≤ 2 then Phase.projects
         else if i ≤ 4 then Phase.technical
         else if i ≤ 6 then Phase.behavioral
         else Phase.scenario)) := by
  refine ⟨?_, ?_, ?_, ?_⟩
  · simp [getPhaseByTurn]
  · simp only [getPhaseByTurn, Int.max_def]
    split_ifs <;> first | rfl | omega
  · intro i j hi hij hj
    simp only [getPhaseByTurn, Int.max_def]
    split_ifs <;> simp [phaseRank] <;> omega
  · intro i h0 h1
    simp only [getPhaseByTurn, Int.max_def]
    split_ifs <;> first | rfl | omega

/-- Witness for C1 at maxTurns = 8. -/
theorem c1_getPhaseByTurn_spec_witness :
    (2 : Int) ≤ 8 ∧ getPhaseByTurn 0 8 = Phase.intro ∧
      getPhaseByTurn (8 - 1) 8 = Phase.wrapup :=
  ⟨by norm_num, (c1_getPhaseByTurn_spec 8 (by norm_num)).1,
    (c1_getPhaseByTurn_spec 8 (by norm_num)).2.1⟩

/-- Unfolding lemma: the transcript list always gains exactly the produced
transcript (sentinel on failure), in both the terminal and the
non-terminal branch. -/
theorem endAnswer_transcripts_eq (ef : String → String) (s : Session) (tr : Option String)
    (ev : EvalResult) (llm : Option String) :
    (endAnswer ef s tr ev llm).1.transcripts =
      s.transcripts ++ [tr.getD "Transcription failed."] := by
  simp only [endAnswer]
  split_ifs <;> rfl

/-- Unfolding lemma for the recent-transcript update. -/
theorem endAnswer_recent_eq (ef : String → String) (s : Session) (tr : Option String)
    (ev : EvalResult) (llm : Option String) :
    (endAnswer ef s tr ev llm).1.recentTranscripts =
      pushCap3 s.recentTranscripts (tr.getD "Transcription failed.") := by
  simp only [endAnswer]
  split_ifs <;> rfl

/-- Unfolding lemma for the turn advance. -/
theorem endAnswer_turnIndex_eq (ef : String → String) (s : Session) (tr : Option String)
    (ev : EvalResult) (llm : Option String) :
    (endAnswer ef s tr ev llm).1.turnIndex = min (s.turnIndex + 1) s.maxTurns := by
  simp only [endAnswer]
  split_ifs <;> rfl

/-- Unfolding lemma: maxTurns is never changed. -/
theorem endAnswer_maxTurns_eq (ef : String → String) (s : Session) (tr : Option String)
    (ev : EvalResult) (llm : Option String) :
    (endAnswer ef s tr ev llm).1.maxTurns = s.maxTurns := by
  simp only [endAnswer]
  split_ifs <;> rfl

/-- Unfolding lemma for the phase recomputation. -/
theorem endAnswer_phase_eq (ef : String → String) (s : Session) (tr : Option String)
    (ev : EvalResult) (llm : Option String) :
    (endAnswer ef s tr ev llm).1.phase =
      getPhaseByTurn (min (s.turnIndex + 1) s.maxTurns) s.maxTurns := by
  simp only [endAnswer]
  split_ifs <;> rfl

/-- Unfolding lemma for the summary update. -/
theorem endAnswer_summary_eq (ef : String → String) (s : Session) (tr : Option String)
    (ev : EvalResult) (llm : Option String) :
    (endAnswer ef s tr ev llm).1.summarySoFar =
      clampSummary ([s.summarySoFar,
        ef (tr.getD "Transcription failed.")].filter (fun t => !(t == ""))) 1200 := by
  simp only [endAnswer]
  split_ifs <;> rfl

/-- The first emitted event is always an evaluation event carrying the
produced transcript. -/
theorem endAnswer_head_event (ef : String → String) (s : Session) (tr : Option String)
    (ev : EvalResult) (llm : Option String) :
    ∃ nq, (endAnswer ef s tr ev llm).2.head? =
      some (SockEvent.evaluation ev nq (tr.getD "Transcription failed.")) := by
  simp only [endAnswer]
  split_ifs <;> exact ⟨_, rfl⟩

/-- Every canned fallback question is a nonempty string. -/
theorem fallbackQuestionForPhase_ne_empty (s : Session) : fallbackQuestionForPhase s ≠ "" := by
  simp only [fallbackQuestionForPhase]
  cases s.phase <;> cases s.level <;> decide

/-- The question generator never returns the empty string: a sanitized
reply passes the emptiness guard, and otherwise a canned fallback is
used. -/
theorem getNextQuestionFromLLM_ne_empty (s : Session) (llm : Option String) :
    getNextQuestionFromLLM s llm ≠ "" := by
  cases llm with
  | none => exact fallbackQuestionForPhase_ne_empty s
  | some text =>
    simp only [getNextQuestionFromLLM]
    split
    · exact fallbackQuestionForPhase_ne_empty s
    · rename_i h
      intro hc
      apply h
      rw [hc]
      decide

/-- On the terminal turn (turnIndex + 1 reaches maxTurns) the handler emits
the evaluation event with no next question followed by the
interview-ended event, and leaves the question fields unchanged. -/
theorem endAnswer_terminal_spec (ef : String → String) (s : Session) (tr : Option String)
    (ev : EvalResult) (llm : Option String) (h : s.maxTurns ≤ s.turnIndex + 1) :
    (endAnswer ef s tr ev llm).2 =
      [SockEvent.evaluation ev none (tr.getD "Transcription failed."),
       SockEvent.interviewEnded (endAnswer ef s tr ev llm).1.summarySoFar (evalScoreOr3 ev)] ∧
    (endAnswer ef s tr ev llm).1.askedQuestions = s.askedQuestions ∧
    (endAnswer ef s tr ev llm).1.currentQuestion = s.currentQuestion := by
  have hcond : (postAnswerSession ef s tr).turnIndex ≥ (postAnswerSession ef s tr).maxTurns :=
    le_min h le_rfl
  simp only [endAnswer]
  rw [if_pos hcond]
  exact ⟨rfl, rfl, rfl⟩

/-- On a non-terminal turn the handler appends exactly one (nonempty)
question to `askedQuestions` and emits a single evaluation event carrying
it. -/
theorem endAnswer_nonterminal_spec (ef : String → String) (s : Session) (tr : Option String)
    (ev : EvalResult) (llm : Option String) (h : s.turnIndex + 1 < s.maxTurns) :
    ∃ q, q ≠ "" ∧
      (endAnswer ef s tr ev llm).1.askedQuestions = s.askedQuestions ++ [q] ∧
      (endAnswer ef s tr ev llm).2 =
        [SockEvent.evaluation ev (some q) (tr.getD "Transcription failed.")] := by
  have hcond : ¬ (postAnswerSession ef s tr).turnIndex ≥ (postAnswerSession ef s tr).maxTurns := by
    intro hc
    exact absurd (le_trans hc (min_le_left _ _)) (not_le.mpr h)
  have hne := getNextQuestionFromLLM_ne_empty (postAnswerSession ef s tr) llm
  simp only [endAnswer]
  rw [if_neg hcond, if_neg hne, if_pos hne]
  exact ⟨_, hne, rfl, rfl⟩

/-- C2 counterexample: a session created with maxTurns = 1 is in phase
intro at creation, not wrapup — the intro rule (`turnIndex <= 0`) is
checked before the wrapup rule. -/
theorem c2_maxTurns_one_intro_counterexample :
    (createSession "s1" none none none none (some 1) none none).phase = Phase.intro ∧
    Phase.intro ≠ Phase.wrapup := by
  exact ⟨rfl, by decide⟩

/-- C2 (amended): a session created with maxTurns = 1 starts at turn 0 in
phase intro (the intro rule takes precedence over the wrapup rule); its
first completed end-of-answer emits an evaluation event with no next
question together with an interview-ended event, and generates no
further question (askedQuestions and currentQuestion are unchanged). -/
theorem c2_maxTurns_one_first_answer_ends (id : String) (co ro rd cp : Option String)
    (lv : Option Level) (llm : Option String) (ef : String → String)
    (tr : Option String) (ev : EvalResult) (llm₂ : Option String) :
    (createSession id co ro rd cp (some 1) lv llm).turnIndex = 0 ∧
    (createSession id co ro rd cp (some 1) lv llm).maxTurns = 1 ∧
    (createSession id co ro rd cp (some 1) lv llm).phase = Phase.intro ∧
    (endAnswer ef (createSession id co ro rd cp (some 1) lv llm) tr ev llm₂).2 =
      [SockEvent.evaluation ev none (tr.getD "Transcription failed."),
       SockEvent.interviewEnded
         (endAnswer ef (createSession id co ro rd cp (some 1) lv llm) tr ev llm₂).1.summarySoFar
         (evalScoreOr3 ev)] ∧
    (endAnswer ef (createSession id co ro rd cp (some 1) lv llm) tr ev llm₂).1.askedQuestions =
      (createSession id co ro rd cp (some 1) lv llm).askedQuestions ∧
    (endAnswer ef (createSession id co ro rd cp (some 1) lv llm) tr ev llm₂).1.currentQuestion =
      (createSession id co ro rd cp (some 1) lv llm).currentQuestion := by
  have hmax : (createSession id co ro rd cp (some 1) lv llm).maxTurns = 1 := rfl
  have hturn : (createSession id co ro rd cp (some 1) lv llm).turnIndex = 0 := rfl
  have hterm := endAnswer_terminal_spec ef (createSession id co ro rd cp (some 1) lv llm)
    tr ev llm₂ (by rw [hmax, hturn]; norm_num)
  exact ⟨hturn, hmax, rfl, hterm.1, hterm.2.1, hterm.2.2⟩

/-- C3: whenever the transcription step fails (in particular for a
zero-byte recording, which `convertToWav` rejects as an empty recording
before transcoding), the sentinel transcript is recorded for the turn,
the turn still advances by exactly 1 (clamped to maxTurns), the phase is
recomputed from the new turn, and an evaluation event is still emitted. -/
theorem c3_transcription_failure_sentinel (ef : String → String) (s : Session)
    (ev : EvalResult) (llm : Option String) :
    (endAnswer ef s none ev llm).1.transcripts = s.transcripts ++ ["Transcription failed."] ∧
    (endAnswer ef s none ev llm).1.turnIndex = min (s.turnIndex + 1) s.maxTurns ∧
    (endAnswer ef s none ev llm).1.phase =
      getPhaseByTurn (min (s.turnIndex + 1) s.maxTurns) s.maxTurns ∧
    (∃ nq, (endAnswer ef s none ev llm).2.head? =
      some (SockEvent.evaluation ev nq "Transcription failed.")) ∧
    convertToWavGuard "rec.webm" true 0 =
      Except.error "Recording was empty — please try again." := by
  refine ⟨?_, ?_, ?_, ?_, rfl⟩
  · exact endAnswer_transcripts_eq ef s none ev llm
  · exact endAnswer_turnIndex_eq ef s none ev llm
  · exact endAnswer_phase_eq ef s none ev llm
  · exact endAnswer_head_event ef s none ev llm

/-- C10: an audio-chunk or end-answer event on a socket that never joined
(`sid = none`) or joined with an id absent from the store changes no
session and emits no event. -/
theorem c10_unjoined_socket_frame (extractFacts : String → String)
    (store : List (String × Session)) (sid : Option String) (chunk : List Nat)
    (tr : Option String) (ev : EvalResult) (llm : Option String)
    (h : ∀ id, sid = some id → store.lookup id = none) :
    handleAudioChunk store sid chunk = (store, []) ∧
    handleEndAnswer extractFacts store sid tr ev llm = (store, []) := by
  cases sid with
  | none => exact ⟨rfl, rfl⟩
  | some id =>
    have hid := h id rfl
    constructor
    · simp [handleAudioChunk, hid]
    · simp [handleEndAnswer, hid]

/-- Witness for C10: a store holding one session, addressed with an
unknown id. -/
theorem c10_unjoined_socket_frame_witness :
    handleAudioChunk [("s1", createSession "s1" none none none none none none none)]
        (some "zz") [] =
      ([("s1", createSession "s1" none none none none none none none)], []) ∧
    handleEndAnswer (fun _ => "")
        [("s1", createSession "s1" none none none none none none none)]
        (some "zz") none (EvalResult.parsed none "") none =
      ([("s1", createSession "s1" none none none none none none none)], []) :=
  c10_unjoined_socket_frame (fun _ => "") _ (some "zz") [] none (EvalResult.parsed none "") none
    (fun id hid => by cases hid; rfl)

/-- C7: for any transcript and any jitter in [0,1), the mock evaluation's
score is exactly clamp(round(2 + 3·min(1, len/800) + jitter), 1, 5), lies
in 1..5, the pass flag equals (score ≥ 3), and the feedback is one of the
two fixed strings selected by (score ≥ 3). -/
theorem c7_buildMockEvaluation_spec (t : String) (r : ℚ) (h0 : 0 ≤ r) (h1 : r < 1) :
    (buildMockEvaluation t r).score =
      max 1 (min 5 (jsRound (2 + 3 * min 1 ((t.length : ℚ) / 800) + r))) ∧
    1 ≤ (buildMockEvaluation t r).score ∧
    (buildMockEvaluation t r).score ≤ 5 ∧
    (buildMockEvaluation t r).pass = decide (3 ≤ (buildMockEvaluation t r).score) ∧
    (buildMockEvaluation t r).feedback =
      (if 3 ≤ (buildMockEvaluation t r).score then
        "Solid answer. You clearly explained the situation and your impact."
      else "Try adding more detail about your actions and measurable outcomes.") := by
  have harg : 2 + min 1 ((t.length : ℚ) / 800) * 3 + r =
      2 + 3 * min 1 ((t.length : ℚ) / 800) + r := by ring
  refine ⟨?_, ?_, ?_, rfl, rfl⟩
  · simp only [buildMockEvaluation, harg]
  · exact le_max_left 1 _
  · exact max_le (by norm_num) (min_le_left 5 _)

/-- Witness for C7 at the empty transcript and jitter 0. -/
theorem c7_buildMockEvaluation_spec_witness :
    (0 : ℚ) ≤ 0 ∧ (0 : ℚ) < 1 ∧
      1 ≤ (buildMockEvaluation "" 0).score ∧ (buildMockEvaluation "" 0).score ≤ 5 :=
  ⟨le_refl 0, by norm_num, (c7_buildMockEvaluation_spec "" 0 (le_refl 0) (by norm_num)).2.1,
    (c7_buildMockEvaluation_spec "" 0 (le_refl 0) (by norm_num)).2.2.1⟩

/-- C9: the mock score is always at least 2 — the lower clamp bound 1 is
never attained — so it lies in 2..5, and a failing evaluation has score
exactly 2. -/
theorem c9_mock_score_at_least_two (t : String) (r : ℚ) (h0 : 0 ≤ r) (h1 : r < 1) :
    2 ≤ (buildMockEvaluation t r).score ∧
    (buildMockEvaluation t r).score ≤ 5 ∧
    ((buildMockEvaluation t r).pass = false → (buildMockEvaluation t r).score = 2) := by
  have hnn : (0 : ℚ) ≤ min 1 ((t.length : ℚ) / 800) :=
    le_min (by norm_num) (by positivity)
  have hbase : (2 : Int) ≤ jsRound (2 + min 1 ((t.length : ℚ) / 800) * 3 + r) := by
    unfold jsRound
    rw [Int.le_floor]
    push_cast
    nlinarith [hnn, h0]
  have hscore : 2 ≤ (buildMockEvaluation t r).score := by
    simp only [buildMockEvaluation]
    exact le_max_of_le_right (le_min (by norm_num) hbase)
  refine ⟨hscore, max_le (by norm_num) (min_le_left 5 _), ?_⟩
  intro hfail
  have hlt : ¬ (3 : Int) ≤ (buildMockEvaluation t r).score := by
    have : (buildMockEvaluation t r).pass = decide (3 ≤ (buildMockEvaluation t r).score) := rfl
    rw [this] at hfail
    exact of_decide_eq_false hfail
  omega

/-- Witness for C9 at a concrete transcript and jitter 1/2. -/
theorem c9_mock_score_at_least_two_witness :
    (0 : ℚ) ≤ 1 / 2 ∧ (1 / 2 : ℚ) < 1 ∧ 2 ≤ (buildMockEvaluation "short answer" (1 / 2)).score :=
  ⟨by norm_num, by norm_num,
    (c9_mock_score_at_least_two "short answer" (1 / 2) (by norm_num) (by norm_num)).1⟩

/-- The last-n suffix never exceeds n elements. -/
theorem lastN_length_le {α : Type} (n : Nat) (l : List α) : (lastN n l).length ≤ n := by
  unfold lastN
  rw [List.length_drop]
  omega

/-- Short lists are their own last-n suffix. -/
theorem lastN_of_length_le {α : Type} (n : Nat) (l : List α) (h : l.length ≤ n) :
    lastN n l = l := by
  unfold lastN
  rw [show l.length - n = 0 by omega, List.drop_zero]

/-- The capped push preserves the last-three-suffix description: pushing
onto the last three of `ts` yields the last three of `ts ++ [t]`. -/
theorem pushCap3_lastN (ts : List String) (t : String) :
    pushCap3 (lastN 3 ts) t = lastN 3 (ts ++ [t]) := by
  by_cases h : ts.length ≤ 2
  · rw [lastN_of_length_le 3 ts (by omega)]
    unfold pushCap3
    rw [if_neg (by simp only [List.length_append, List.length_singleton]; omega)]
    rw [lastN_of_length_le 3 (ts ++ [t])
      (by simp only [List.length_append, List.length_singleton]; omega)]
  · have h3 : 3 ≤ ts.length := by omega
    have hlast : (lastN 3 ts).length = 3 := by
      unfold lastN
      rw [List.length_drop]
      omega
    unfold pushCap3
    rw [if_pos (by rw [List.length_append, hlast]; norm_num)]
    unfold lastN
    rw [← List.drop_one, List.drop_append_of_le_length (by rw [List.length_drop]; omega),
        List.drop_drop,
        List.drop_append_of_le_length (by simp only [List.length_append, List.length_singleton]; omega)]
    congr 2
    simp only [List.length_append, List.length_singleton]
    omega

/-- One completed answer preserves the invariant that `recentTranscripts`
is the last-three suffix of `transcripts`. -/
theorem endAnswer_recent_inv (ef : String → String) (s : Session) (tr : Option String)
    (ev : EvalResult) (llm : Option String)
    (hinv : s.recentTranscripts = lastN 3 s.transcripts) :
    (endAnswer ef s tr ev llm).1.recentTranscripts =
      lastN 3 (endAnswer ef s tr ev llm).1.transcripts := by
  rw [endAnswer_recent_eq, endAnswer_transcripts_eq, hinv, pushCap3_lastN]

/-- After a run of completed answers, `transcripts` holds exactly the
produced transcripts in arrival order, appended to the initial history. -/
theorem runAnswers_transcripts (ef : String → String)
    (inputs : List (Option String × EvalResult × Option String)) :
    ∀ s : Session, (runAnswers ef s inputs).transcripts =
      s.transcripts ++ inputs.map answerTranscript := by
  induction inputs with
  | nil => intro s; simp [runAnswers]
  | cons a as ih =>
    intro s
    show (runAnswers ef (endAnswer ef s a.1 a.2.1 a.2.2).1 as).transcripts = _
    rw [ih, endAnswer_transcripts_eq]
    simp [answerTranscript]

/-- The last-three invariant is preserved by any run of completed answers. -/
theorem runAnswers_recent_inv (ef : String → String)
    (inputs : List (Option String × EvalResult × Option String)) :
    ∀ s : Session, s.recentTranscripts = lastN 3 s.transcripts →
      (runAnswers ef s inputs).recentTranscripts =
        lastN 3 (runAnswers ef s inputs).transcripts := by
  induction inputs with
  | nil => intro s h; exact h
  | cons a as ih =>
    intro s h
    exact ih _ (endAnswer_recent_inv ef s a.1 a.2.1 a.2.2 h)

/-- C6: recentTranscripts never exceeds 3 entries; from a fresh session it
always equals the last three produced transcripts in arrival order, and
after exactly 5 answers it holds transcripts 3, 4 and 5. -/
theorem c6_recentTranscripts_fifo :
    (∀ (ef : String → String) (s : Session) (tr : Option String) (ev : EvalResult)
        (llm : Option String), s.recentTranscripts.length ≤ 3 →
        (endAnswer ef s tr ev llm).1.recentTranscripts.length ≤ 3) ∧
    (∀ (ef : String → String) (id : String) (co ro rd cp : Option String) (mt : Option Int)
        (lv : Option Level) (llm : Option String)
        (inputs : List (Option String × EvalResult × Option String)),
        (runAnswers ef (createSession id co ro rd cp mt lv llm) inputs).recentTranscripts =
          lastN 3 (inputs.map answerTranscript) ∧
        (runAnswers ef (createSession id co ro rd cp mt lv llm)
            inputs).recentTranscripts.length ≤ 3) ∧
    (∀ (ef : String → String) (id : String) (co ro rd cp : Option String) (mt : Option Int)
        (lv : Option Level) (llm : Option String)
        (a₁ a₂ a₃ a₄ a₅ : Option String × EvalResult × Option String),
        (runAnswers ef (createSession id co ro rd cp mt lv llm)
            [a₁, a₂, a₃, a₄, a₅]).recentTranscripts =
          [answerTranscript a₃, answerTranscript a₄, answerTranscript a₅]) := by
  have hgen : ∀ (ef : String → String) (id : String) (co ro rd cp : Option String)
      (mt : Option Int) (lv : Option Level) (llm : Option String)
      (inputs : List (Option String × EvalResult × Option String)),
      (runAnswers ef (createSession id co ro rd cp mt lv llm) inputs).recentTranscripts =
        lastN 3 (inputs.map answerTranscript) := by
    intro ef id co ro rd cp mt lv llm inputs
    have h0 : (createSession id co ro rd cp mt lv llm).recentTranscripts =
        lastN 3 (createSession id co ro rd cp mt lv llm).transcripts := rfl
    rw [runAnswers_recent_inv ef inputs _ h0, runAnswers_transcripts,
        show (createSession id co ro rd cp mt lv llm).transcripts = [] from rfl,
        List.nil_append]
  refine ⟨?_, fun ef id co ro rd cp mt lv llm inputs =>
      ⟨hgen ef id co ro rd cp mt lv llm inputs,
        by rw [hgen ef id co ro rd cp mt lv llm inputs]; exact lastN_length_le 3 _⟩, ?_⟩
  · intro ef s tr ev llm h
    rw [endAnswer_recent_eq]
    unfold pushCap3
    split
    · rw [List.length_tail]
      simp only [List.length_append, List.length_singleton]
      omega
    · rename_i hle
      exact Nat.not_lt.mp hle
  · intro ef id co ro rd cp mt lv llm a₁ a₂ a₃ a₄ a₅
    rw [hgen]
    rfl

/-- Witness for C6: the length bound applied to a fresh session after one
failed-transcription answer. -/
theorem c6_recentTranscripts_fifo_witness :
    (createSession "w6" none none none none none none none).recentTranscripts.length ≤ 3 ∧
    (endAnswer (fun _ => "") (createSession "w6" none none none none none none none)
        none (EvalResult.parsed none "") none).1.recentTranscripts.length ≤ 3 :=
  ⟨by decide,
    c6_recentTranscripts_fifo.1 (fun _ => "") _ none (EvalResult.parsed none "") none (by decide)⟩

/-- C4 counterexample: `askedQuestions` entries are not always distinct.
With the model unavailable throughout, a fresh 8-turn session asks the
intro fallback at creation and then appends the projects-phase canned
fallback twice — once after each of the first two answers (turns 1 and 2
are both in the projects phase) — so two entries are identical strings. -/
theorem c4_askedQuestions_duplicate_counterexample :
    (endAnswer (fun _ => "")
        (endAnswer (fun _ => "")
            (createSession "c4" none (some "engineer") none none (some 8) none none)
            none (EvalResult.parsed none "") none).1
        none (EvalResult.parsed none "") none).1.askedQuestions =
      ["Briefly introduce yourself and your relevant experience.",
       "Describe a project where you owned key responsibilities.",
       "Describe a project where you owned key responsibilities."] ∧
    ¬ List.Pairwise (fun a b => a ≠ b)
        (endAnswer (fun _ => "")
            (endAnswer (fun _ => "")
                (createSession "c4" none (some "engineer") none none (some 8) none none)
                none (EvalResult.parsed none "") none).1
            none (EvalResult.parsed none "") none).1.askedQuestions := by
  constructor
  · rfl
  · decide

/-- C4 (amended): `askedQuestions` grows by exactly 1 at creation and by
exactly 1 per completed non-terminal answer, is append-only (the old list
is always a prefix of the new one), and nothing is appended on the
terminal turn; entries are, however, not guaranteed pairwise distinct. -/
theorem c4_askedQuestions_growth :
    (∀ (id : String) (co ro rd cp : Option String) (mt : Option Int) (lv : Option Level)
        (llm : Option String),
        (createSession id co ro rd cp mt lv llm).askedQuestions.length = 1) ∧
    (∀ (ef : String → String) (s : Session) (tr : Option String) (ev : EvalResult)
        (llm : Option String), s.turnIndex + 1 < s.maxTurns →
        ∃ q, (endAnswer ef s tr ev llm).1.askedQuestions = s.askedQuestions ++ [q] ∧
          (endAnswer ef s tr ev llm).1.askedQuestions.length = s.askedQuestions.length + 1) ∧
    (∀ (ef : String → String) (s : Session) (tr : Option String) (ev : EvalResult)
        (llm : Option String), s.maxTurns ≤ s.turnIndex + 1 →
        (endAnswer ef s tr ev llm).1.askedQuestions = s.askedQuestions) := by
  refine ⟨?_, ?_, ?_⟩
  · intro id co ro rd cp mt lv llm
    simp only [createSession]
    rw [if_pos (getNextQuestionFromLLM_ne_empty _ llm)]
    rfl
  · intro ef s tr ev llm h
    obtain ⟨q, _, hasked, _⟩ := endAnswer_nonterminal_spec ef s tr ev llm h
    refine ⟨q, hasked, ?_⟩
    rw [hasked]
    simp
  · intro ef s tr ev llm h
    exact (endAnswer_terminal_spec ef s tr ev llm h).2.1

/-- Witness for C4: the growth clause applied to a fresh 8-turn session. -/
theorem c4_askedQuestions_growth_witness :
    (createSession "w4" none none none none none none none).turnIndex + 1 <
      (createSession "w4" none none none none none none none).maxTurns ∧
    ∃ q, (endAnswer (fun _ => "") (createSession "w4" none none none none none none none)
          none (EvalResult.parsed none "") none).1.askedQuestions =
        (createSession "w4" none none none none none none none).askedQuestions ++ [q] ∧
      (endAnswer (fun _ => "") (createSession "w4" none none none none none none none)
          none (EvalResult.parsed none "") none).1.askedQuestions.length =
        (createSession "w4" none none none none none none none).askedQuestions.length + 1 :=
  ⟨by decide,
    c4_askedQuestions_growth.2.1 (fun _ => "") _ none (EvalResult.parsed none "") none (by decide)⟩

/-- `clampSummary` with a positive cap: the result never exceeds the cap,
and on overflow it is a length-cap suffix of the joined text. -/
theorem clampSummary_spec (texts : List String) (cap : Nat) (hcap : cap ≠ 0) :
    (clampSummary texts cap).length ≤ cap ∧
    (cap < (String.intercalate " \n" texts).length →
      ∃ pre : String, pre ++ clampSummary texts cap = String.intercalate " \n" texts ∧
        (clampSummary texts cap).length = cap) := by
  by_cases hle : (String.intercalate " \n" texts).length ≤ cap
  · have hval : clampSummary texts cap = String.intercalate " \n" texts := by
      simp only [clampSummary]
      rw [if_pos hle]
    rw [hval]
    exact ⟨hle, fun hgt => absurd hgt (by omega)⟩
  · have hval : clampSummary texts cap =
        String.mk ((String.intercalate " \n" texts).toList.drop
          ((String.intercalate " \n" texts).length - cap)) := by
      simp only [clampSummary]
      rw [if_neg hle, if_neg hcap]
    have htl : ((String.intercalate " \n" texts).toList).length =
        (String.intercalate " \n" texts).length := rfl
    have hlen : (String.mk ((String.intercalate " \n" texts).toList.drop
        ((String.intercalate " \n" texts).length - cap))).length = cap := by
      show ((String.intercalate " \n" texts).toList.drop
        ((String.intercalate " \n" texts).length - cap)).length = cap
      rw [List.length_drop, htl]
      omega
    rw [hval]
    refine ⟨by rw [hlen], fun _ => ?_⟩
    refine ⟨String.mk ((String.intercalate " \n" texts).toList.take
      ((String.intercalate " \n" texts).length - cap)), ?_, hlen⟩
    show String.mk ((String.intercalate " \n" texts).toList.take _ ++
      (String.intercalate " \n" texts).toList.drop _) = String.intercalate " \n" texts
    rw [List.take_append_drop]
    rfl

/-- C5: the summary clamp never exceeds the 1200-character cap used by
the orchestrator; when the joined text overflows, the kept text is the
1200-character suffix (there is a dropped left part `pre`); and after any
completed answer the session summary is within the cap. -/
theorem c5_summary_cap :
    (∀ texts, (clampSummary texts 1200).length ≤ 1200) ∧
    (∀ texts, 1200 < (String.intercalate " \n" texts).length →
      ∃ pre : String, pre ++ clampSummary texts 1200 = String.intercalate " \n" texts ∧
        (clampSummary texts 1200).length = 1200) ∧
    (∀ (ef : String → String) (s : Session) (tr : Option String) (ev : EvalResult)
        (llm : Option String), ((endAnswer ef s tr ev llm).1.summarySoFar).length ≤ 1200) := by
  refine ⟨fun texts => (clampSummary_spec texts 1200 (by norm_num)).1,
    fun texts h => (clampSummary_spec texts 1200 (by norm_num)).2 h, ?_⟩
  intro ef s tr ev llm
  rw [endAnswer_summary_eq]
  exact (clampSummary_spec _ 1200 (by norm_num)).1

/-- Witness for C5: a 1300-character text overflows the cap and the clamp
keeps a 1200-character suffix. -/
theorem c5_summary_cap_witness :
    1200 < (String.intercalate " \n" [String.mk (List.replicate 1300 'a')]).length ∧
    ∃ pre : String,
      pre ++ clampSummary [String.mk (List.replicate 1300 'a')] 1200 =
        String.intercalate " \n" [String.mk (List.replicate 1300 'a')] ∧
      (clampSummary [String.mk (List.replicate 1300 'a')] 1200).length = 1200 := by
  have h : 1200 < (String.intercalate " \n" [String.mk (List.replicate 1300 'a')]).length := by
    show 1200 < (List.replicate 1300 'a').length
    rw [List.length_replicate]
    norm_num
  exact ⟨h, c5_summary_cap.2.1 [String.mk (List.replicate 1300 'a')] h⟩

/-- A successful case-insensitive strip returns a suffix of the input. -/
theorem stripPrefixCI_isSuffix :
    ∀ (p l r : List Char), stripPrefixCI p l = some r → r <:+ l
  | [], l, r => by
    intro h
    simp only [stripPrefixCI, Option.some.injEq] at h
    exact h ▸ List.suffix_refl l
  | _ :: _, [], r => by
    intro h
    exact absurd h (by simp [stripPrefixCI])
  | p :: ps, c :: cs, r => by
    intro h
    simp only [stripPrefixCI] at h
    split at h
    · exact (stripPrefixCI_isSuffix ps cs r h).trans (List.suffix_cons c cs)
    · exact absurd h (by simp)

/-- A successful case-insensitive strip means the pattern case-matches a
prefix of the input. -/
theorem stripPrefixCI_matches :
    ∀ (p l r : List Char), stripPrefixCI p l = some r → matchesFrom lowerEq p l = true
  | [], l, r => by
    intro _
    rfl
  | _ :: _, [], r => by
    intro h
    exact absurd h (by simp [stripPrefixCI])
  | p :: ps, c :: cs, r => by
    intro h
    simp only [stripPrefixCI] at h
    split at h
    · rename_i heq
      simp only [matchesFrom, Bool.and_eq_true]
      exact ⟨heq, stripPrefixCI_matches ps cs r h⟩
    · exact absurd h (by simp)

/-- A prefix match on a suffix of `l` is an occurrence in `l`. -/
theorem containsFrom_of_suffix (eq : Char → Char → Bool) (pat : List Char) :
    ∀ (l x : List Char), x <:+ l → matchesFrom eq pat x = true → containsFrom eq pat l = true := by
  intro l
  induction l with
  | nil =>
    intro x hx hm
    rw [List.suffix_nil.mp hx] at hm
    simpa [containsFrom] using hm
  | cons c cs ih =>
    intro x hx hm
    rcases List.suffix_cons_iff.mp hx with h | h
    · subst h
      simp [containsFrom, hm]
    · simp [containsFrom, ih x h hm]

/-- A list with no occurrence of `pat` has no suffix starting with it. -/
theorem not_matches_of_not_containsFrom (eq : Char → Char → Bool) (pat : List Char)
    (l x : List Char) (hx : x <:+ l) (h : containsFrom eq pat l = false) :
    ∀ r, stripPrefixCI pat x = some r → eq = lowerEq → False := by
  intro r hr heq
  subst heq
  have := containsFrom_of_suffix lowerEq pat l x hx (stripPrefixCI_matches pat x r hr)
  rw [h] at this
  exact absurd this (by simp)

/-- If the triple-backtick marker does not occur, the fence search fails. -/
theorem splitAtTriple_eq_none :
    ∀ (l : List Char), backtick ∉ l → ∀ acc, splitAtTriple acc l = none
  | [], _, _ => rfl
  | [_], _, _ => rfl
  | [_, _], _, _ => rfl
  | c₁ :: c₂ :: c₃ :: rest, h, acc => by
    have hc₁ : c₁ ≠ backtick := fun hc => h (hc ▸ List.mem_cons_self c₁ _)
    simp only [splitAtTriple]
    rw [if_neg (by simp [hc₁])]
    exact splitAtTriple_eq_none (c₂ :: c₃ :: rest)
      (fun hm => h (List.mem_cons_of_mem _ hm)) _

/-- Fence removal is the identity on backtick-free text. -/
theorem removeFences_id (fuel : Nat) (l : List Char) (h : backtick ∉ l) :
    removeFences fuel l = l := by
  cases fuel with
  | zero => rfl
  | succ n =>
    simp only [removeFences]
    rw [splitAtTriple_eq_none l h []]

/-- With no colon in `l`, the label alternation fails on any suffix. -/
theorem tryLabelKeys_eq_none (l : List Char) (hcolon : ':' ∉ l) :
    ∀ (keys : List (List Char)) (x : List Char), x <:+ l → tryLabelKeys x keys = none := by
  intro keys
  induction keys with
  | nil => intro x _; rfl
  | cons kw kws ih =>
    intro x hx
    simp only [tryLabelKeys]
    cases hstrip : stripPrefixCI kw x with
    | none => exact ih x hx
    | some r =>
      dsimp only
      cases hdrop : r.dropWhile wsChar with
      | nil => exact ih x hx
      | cons c rest =>
        dsimp only
        have hcmem : c ∈ l := by
          have h1 : c ∈ r.dropWhile wsChar := by
            rw [hdrop]
            exact List.mem_cons_self c rest
          have h2 : r.dropWhile wsChar <:+ r := List.dropWhile_suffix wsChar
          have h3 : r <:+ x := stripPrefixCI_isSuffix kw x r hstrip
          exact hx.subset (h3.subset (h2.subset h1))
        have hcne : ¬ c = ':' := fun hc => hcolon (hc ▸ hcmem)
        rw [if_neg hcne]
        exact ih x hx

/-- With no colon, no label-line match starts at any suffix position. -/
theorem matchLabel_eq_none (l : List Char) (hcolon : ':' ∉ l)
    (x : List Char) (hx : x <:+ l) : matchLabel x = none :=
  tryLabelKeys_eq_none l hcolon labelKeys (x.dropWhile wsChar)
    ((List.dropWhile_suffix wsChar).trans hx)

/-- With no occurrence of the three heading keywords, the heading
alternation fails on any suffix. -/
theorem matchSection_eq_none (l : List Char)
    (h₁ : containsCI (strChars "BEHAVIOR RULES") l = false)
    (h₂ : containsCI (strChars "PHASE LOGIC") l = false)
    (h₃ : containsCI (strChars "OUTPUT FORMAT") l = false)
    (x : List Char) (hx : x <:+ l) : matchSection x = none := by
  have hx' : x.dropWhile wsChar <:+ l := (List.dropWhile_suffix wsChar).trans hx
  simp only [matchSection, sectionKeys, trySectionKeys]
  cases hs₁ : stripPrefixCI (strChars "BEHAVIOR RULES") (x.dropWhile wsChar) with
  | some r =>
    have hcontra : containsCI (strChars "BEHAVIOR RULES") l = true :=
      containsFrom_of_suffix lowerEq _ l _ hx' (stripPrefixCI_matches _ _ r hs₁)
    rw [h₁] at hcontra
    exact absurd hcontra (by simp)
  | none =>
    cases hs₂ : stripPrefixCI (strChars "PHASE LOGIC") (x.dropWhile wsChar) with
    | some r =>
      have hcontra : containsCI (strChars "PHASE LOGIC") l = true :=
        containsFrom_of_suffix lowerEq _ l _ hx' (stripPrefixCI_matches _ _ r hs₂)
      rw [h₂] at hcontra
      exact absurd hcontra (by simp)
    | none =>
      cases hs₃ : stripPrefixCI (strChars "OUTPUT FORMAT") (x.dropWhile wsChar) with
      | some r =>
        have hcontra : containsCI (strChars "OUTPUT FORMAT") l = true :=
          containsFrom_of_suffix lowerEq _ l _ hx' (stripPrefixCI_matches _ _ r hs₃)
        rw [h₃] at hcontra
        exact absurd hcontra (by simp)
      | none => rfl

/-- A line scanner with no matching position is the identity. -/
theorem scanLines_id (m : List Char → Option (List Char)) :
    ∀ (fuel : Nat) (l : List Char), (∀ x, x <:+ l → m x = none) →
      ∀ st, scanLines m fuel st l = l := by
  intro fuel
  induction fuel with
  | zero => intro l _ st; rfl
  | succ n ih =>
    intro l hm st
    cases l with
    | nil => rfl
    | cons c cs =>
      have htail : ∀ x, x <:+ cs → m x = none :=
        fun x hx => hm x (hx.trans (List.suffix_cons c cs))
      cases st with
      | true =>
        simp only [scanLines]
        simp [hm (c :: cs) (List.suffix_refl _), ih cs htail]
      | false =>
        simp only [scanLines]
        simp [ih cs htail]

/-- With no colon, the leading role-play tag strip is the identity. -/
theorem stripRolePlayLead_id (l : List Char) (hcolon : ':' ∉ l) :
    stripRolePlayLead l = l := by
  have hnone : ∀ keys, tryLeadKeys (l.dropWhile wsChar) keys = none := by
    intro keys
    induction keys with
    | nil => rfl
    | cons kw kws ih =>
      simp only [tryLeadKeys]
      cases hstrip : stripPrefixCI kw (l.dropWhile wsChar) with
      | none => exact ih
      | some r =>
        cases r with
        | nil => exact ih
        | cons c rest =>
          dsimp only
          have hcmem : c ∈ l := by
            have h3 : c :: rest <:+ l.dropWhile wsChar :=
              stripPrefixCI_isSuffix kw _ _ hstrip
            exact (List.dropWhile_suffix wsChar).subset
              (h3.subset (List.mem_cons_self c rest))
          have hcne : ¬ c = ':' := fun hc => hcolon (hc ▸ hcmem)
          rw [if_neg hcne]
          exact ih
  simp only [stripRolePlayLead]
  rw [hnone qaLeadKeys]

/-- A word-boundary scanner with no matching position is the identity. -/
theorem scanReplace_id (m : Bool → List Char → Option (Bool × List Char)) :
    ∀ (fuel : Nat) (l : List Char), (∀ pw x, x <:+ l → m pw x = none) →
      ∀ pw, scanReplace m fuel pw l = l := by
  intro fuel
  induction fuel with
  | zero => intro l _ pw; rfl
  | succ n ih =>
    intro l hm pw
    cases l with
    | nil => rfl
    | cons c cs =>
      simp only [scanReplace]
      rw [hm pw (c :: cs) (List.suffix_refl _),
        ih cs (fun pw' x hx => hm pw' x (hx.trans (List.suffix_cons c cs))) (wordChar c)]

/-- With no occurrence of "for ", stage 5 never matches. -/
theorem matchForPositionOf_eq_none (l : List Char)
    (h : containsCI (strChars "for ") l = false)
    (pw : Bool) (x : List Char) (hx : x <:+ l) : matchForPositionOf pw x = none := by
  simp only [matchForPositionOf]
  cases hstrip : stripPrefixCI (strChars "for ") x with
  | none => rfl
  | some r =>
    have hcontra : containsCI (strChars "for ") l = true :=
      containsFrom_of_suffix lowerEq _ l x hx (stripPrefixCI_matches _ _ r hstrip)
    rw [h] at hcontra
    exact absurd hcontra (by simp)

/-- With no occurrence of "for ", stage 6 never matches. -/
theorem matchForRole_eq_none (l : List Char)
    (h : containsCI (strChars "for ") l = false)
    (pw : Bool) (x : List Char) (hx : x <:+ l) : matchForRole pw x = none := by
  simp only [matchForRole]
  cases hstrip : stripPrefixCI (strChars "for ") x with
  | none => rfl
  | some r =>
    have hcontra : containsCI (strChars "for ") l = true :=
      containsFrom_of_suffix lowerEq _ l x hx (stripPrefixCI_matches _ _ r hstrip)
    rw [h] at hcontra
    exact absurd hcontra (by simp)

/-- With no occurrence of "at ", stage 7 never matches. -/
theorem matchAtPhrase_eq_none (l : List Char)
    (h : containsCI (strChars "at ") l = false)
    (pw : Bool) (x : List Char) (hx : x <:+ l) : matchAtPhrase pw x = none := by
  simp only [matchAtPhrase]
  cases hstrip : stripPrefixCI (strChars "at ") x with
  | none => rfl
  | some r =>
    have hcontra : containsCI (strChars "at ") l = true :=
      containsFrom_of_suffix lowerEq _ l x hx (stripPrefixCI_matches _ _ r hstrip)
    rw [h] at hcontra
    exact absurd hcontra (by simp)

/-- `dropWhile` is the identity when the head does not satisfy the
predicate. -/
theorem dropWhile_eq_self_of_head (p : Char → Bool) (l : List Char)
    (h : ∀ c, l.head? = some c → p c = false) : l.dropWhile p = l := by
  cases l with
  | nil => rfl
  | cons c cs =>
    rw [List.dropWhile_cons_of_neg]
    simp [h c rfl]

/-- Line splitting is the identity (one line) on newline-free text. -/
theorem splitNL_id : ∀ l : List Char, (∀ c ∈ l, c ≠ '\n') → splitNL l = [l]
  | [], _ => rfl
  | [c], h => by
    have hc : c ≠ '\n' := h c (List.mem_cons_self c [])
    simp only [splitNL]
    rw [if_neg hc]
  | c :: d :: rest, h => by
    have hc : c ≠ '\n' := h c (List.mem_cons_self c _)
    have hd : d ≠ '\n' := h d (List.mem_cons_of_mem c (List.mem_cons_self d _))
    have hrec : splitNL (d :: rest) = [d :: rest] :=
      splitNL_id (d :: rest) (fun x hx => h x (List.mem_cons_of_mem c hx))
    simp only [splitNL]
    rw [if_neg hc, if_neg (by simp [hd]), hrec]
    rfl

/-- JS trim is the identity when neither end is whitespace. -/
theorem trimChars_id (l : List Char)
    (hhead : ∀ c, l.head? = some c → wsChar c = false)
    (hlast : ∀ c, l.getLast? = some c → wsChar c = false) : trimChars l = l := by
  unfold trimChars
  rw [dropWhile_eq_self_of_head wsChar l hhead,
    dropWhile_eq_self_of_head wsChar l.reverse
      (fun c hc => hlast c (by rwa [List.head?_reverse] at hc)),
    List.reverse_reverse]

/-- Question-mark truncation is the identity when a question mark occurs
at most as the final character. -/
theorem cutAtQ_id : ∀ l : List Char, (∀ c ∈ l.dropLast, c ≠ '?') → cutAtQ l = l
  | [], _ => rfl
  | [c], _ => by
    simp only [cutAtQ]
    split <;> simp_all
  | c :: d :: rest, h => by
    have hc : c ≠ '?' := by
      apply h c
      rw [List.dropLast_cons₂]
      exact List.mem_cons_self c _
    have hrec : cutAtQ (d :: rest) = d :: rest := by
      apply cutAtQ_id (d :: rest)
      intro x hx
      apply h x
      rw [List.dropLast_cons₂]
      exact List.mem_cons_of_mem c hx
    rw [show cutAtQ (c :: d :: rest) =
          (if c = '?' then [c] else c :: cutAtQ (d :: rest)) from rfl,
        if_neg hc, hrec]

/-- Whitespace collapse is the identity when the only whitespace is single
interior spaces. -/
theorem collapseWs_id : ∀ (fuel : Nat) (l : List Char),
    (∀ c ∈ l, wsChar c = true → c = ' ') → noDoubleSpace l = true →
    collapseWs fuel l = l := by
  intro fuel
  induction fuel with
  | zero => intro l _ _; rfl
  | succ n ih =>
    intro l hws hnd
    cases l with
    | nil => rfl
    | cons c cs =>
      have hws' : ∀ x ∈ cs, wsChar x = true → x = ' ' :=
        fun x hx => hws x (List.mem_cons_of_mem c hx)
      have hnd' : noDoubleSpace cs = true := by
        cases cs with
        | nil => rfl
        | cons d ds =>
          simp only [noDoubleSpace, Bool.and_eq_true] at hnd
          exact hnd.2
      simp only [collapseWs]
      by_cases hc : wsChar c = true
      · have hcsp : c = ' ' := hws c (List.mem_cons_self c _) hc
        rw [if_pos hc]
        have hdrop : cs.dropWhile wsChar = cs := by
          cases cs with
          | nil => rfl
          | cons d ds =>
            apply dropWhile_eq_self_of_head
            intro x hx
            simp only [List.head?_cons, Option.some.injEq] at hx
            rw [← hx]
            by_cases hdws : wsChar d = true
            · exfalso
              have hdsp : d = ' ' :=
                hws d (List.mem_cons_of_mem c (List.mem_cons_self d _)) hdws
              rw [hcsp, hdsp] at hnd
              simp [noDoubleSpace] at hnd
            · simpa using hdws
        rw [hdrop, ih cs hws' hnd', hcsp]
      · rw [if_neg hc, ih cs hws' hnd']

/-- On a string in sanitizer normal form, every stage of the sanitizer is
the identity. -/
theorem sanitizeSteps_id (l : List Char) (h : sanitizedNormalForm l = true) :
    sanitizeSteps l = l := by
  simp only [sanitizedNormalForm, Bool.and_eq_true, Bool.not_eq_true',
    decide_eq_true_eq] at h
  obtain ⟨⟨⟨⟨⟨⟨⟨⟨⟨⟨⟨⟨h₁, h₂⟩, h₃⟩, h₄⟩, h₅⟩, h₆⟩, h₇⟩, h₈⟩, h₉⟩, h₁₀⟩, h₁₁⟩, h₁₂⟩, h₁₃⟩ := h
  have hlen : l.length ≤ 240 := h₁
  have hws : ∀ c ∈ l, wsChar c = true → c = ' ' := by
    intro c hc hcw
    have := List.all_eq_true.mp h₂ c hc
    rw [hcw] at this
    simpa using this
  have hnd : noDoubleSpace l = true := h₃
  have hheadmem : ∀ c, l.head? = some c → c ∈ l := by
    intro c hc
    cases l with
    | nil => simp at hc
    | cons d ds =>
      simp only [List.head?_cons, Option.some.injEq] at hc
      rw [← hc]
      exact List.mem_cons_self d ds
  have hhead : ∀ c, l.head? = some c → wsChar c = false := by
    intro c hc
    by_cases hcw : wsChar c = true
    · have hcsp : c = ' ' := hws c (hheadmem c hc) hcw
      rw [hc, hcsp] at h₄
      simp at h₄
    · simpa using hcw
  have hlast : ∀ c, l.getLast? = some c → wsChar c = false := by
    intro c hc
    by_cases hcw : wsChar c = true
    · have hmem : c ∈ l := List.mem_of_mem_getLast? hc
      have hcsp : c = ' ' := hws c hmem hcw
      rw [hc, hcsp] at h₅
      simp at h₅
    · simpa using hcw
  have hcolon : ':' ∉ l := by
    intro hmem
    rw [show l.contains ':' = true from List.elem_eq_true_of_mem hmem] at h₆
    exact Bool.noConfusion h₆
  have hbt : backtick ∉ l := by
    intro hmem
    rw [show l.contains backtick = true from List.elem_eq_true_of_mem hmem] at h₇
    exact Bool.noConfusion h₇
  have hq : ∀ c ∈ l.dropLast, c ≠ '?' := by
    intro c hc hceq
    have := List.all_eq_true.mp h₈ c hc
    rw [hceq] at this
    simp at this
  have hat : containsCI (strChars "at ") l = false := h₉
  have hfor : containsCI (strChars "for ") l = false := h₁₀
  have hbr : containsCI (strChars "BEHAVIOR RULES") l = false := h₁₁
  have hpl : containsCI (strChars "PHASE LOGIC") l = false := h₁₂
  have hof : containsCI (strChars "OUTPUT FORMAT") l = false := h₁₃
  have hnl : ∀ c ∈ l, c ≠ '\n' := by
    intro c hc hceq
    have := hws c hc (by rw [hceq]; decide)
    rw [hceq] at this
    exact absurd this (by decide)
  by_cases hnil : l = []
  · subst hnil
    rfl
  · simp only [sanitizeSteps]
    rw [removeFences_id _ _ hbt,
      scanLines_id matchLabel _ l (fun x hx => matchLabel_eq_none l hcolon x hx) true,
      scanLines_id matchSection _ l (fun x hx => matchSection_eq_none l hbr hpl hof x hx) true,
      stripRolePlayLead_id l hcolon,
      scanReplace_id matchForPositionOf _ l
        (fun pw x hx => matchForPositionOf_eq_none l hfor pw x hx) false,
      scanReplace_id matchForRole _ l
        (fun pw x hx => matchForRole_eq_none l hfor pw x hx) false,
      scanReplace_id matchAtPhrase _ l
        (fun pw x hx => matchAtPhrase_eq_none l hat pw x hx) false,
      splitNL_id l hnl]
    simp only [List.map_cons, List.map_nil]
    rw [trimChars_id l hhead hlast]
    rw [show List.filter (fun x => !x.isEmpty) [l] = [l] from by
      simp [List.filter_cons, List.isEmpty_iff, hnil]]
    rw [show List.intercalate [' '] [l] = l from by simp [List.intercalate]]
    rw [trimChars_id l hhead hlast, cutAtQ_id l hq, collapseWs_id _ l hws hnd,
      trimChars_id l hhead hlast, List.take_of_length_le hlen]

/-- C8 counterexample: the sanitizer is not idempotent.  On this input the
"at …" removals juxtapose backticks into two fresh code fences, which only
a second pass strips: the first pass yields a ten-character string with
two fences and a trailing question mark, the second pass collapses it to
a lone question mark. -/
theorem c8_sanitizeQuestion_not_idempotent_counterexample :
    sanitizeQuestion "``at Qa`Zoo``at Qb`?" = "```Zoo```?" ∧
    sanitizeQuestion (sanitizeQuestion "``at Qa`Zoo``at Qb`?") = "?" ∧
    sanitizeQuestion (sanitizeQuestion "``at Qa`Zoo``at Qb`?") ≠
      sanitizeQuestion "``at Qa`Zoo``at Qb`?" := by
  refine ⟨by decide, by decide, by decide⟩

/-- The character list of a packed string is that list. -/
theorem toList_mk_eq (l : List Char) : (String.mk l).toList = l := rfl

/-- C8 (amended): the sanitizer is idempotent on every input whose
sanitized output is in normal form — at most 240 characters, whitespace
only as single interior spaces, no colon or backtick, a question mark at
most as the final character, and no case-insensitive occurrence of the
substrings the removal stages rewrite ("at ", "for ", and the three
section headings).  Outside this normal form a second application can
differ (see the counterexample). -/
theorem c8_sanitizeQuestion_conditional_idempotent (raw : String)
    (h : sanitizedNormalForm (sanitizeQuestion raw).toList = true) :
    sanitizeQuestion (sanitizeQuestion raw) = sanitizeQuestion raw := by
  simp only [sanitizeQuestion] at h ⊢
  rw [toList_mk_eq] at h ⊢
  rw [sanitizeSteps_id _ h]

/-- Witness for C8: a concrete question whose sanitized form is in normal
form, hence a fixed point of the sanitizer. -/
theorem c8_sanitizeQuestion_conditional_idempotent_witness :
    sanitizedNormalForm (sanitizeQuestion "Describe your proudest project?").toList = true ∧
    sanitizeQuestion (sanitizeQuestion "Describe your proudest project?") =
      sanitizeQuestion "Describe your proudest project?" :=
  ⟨by decide, c8_sanitizeQuestion_conditional_idempotent "Describe your proudest project?"
    (by decide)⟩
